import Mathlib

/-!
Verification of the pyfso grid-and-field computation engine.

Shallow embedding of the numerical core of the `pyfso` package:

* `cart2pol` / `pol2cart` (`pyfso/core/utils.py`),
* the mesh construction `BaseMesh.create_grid` (`pyfso/core.py`),
* the optical parameters `BaseBeam.compute_optical_params` (`pyfso/core.py`),
* the thin-film mask `ThinFilm.create` (`pyfso/films/thin_film.py`),
* the Bessel-Gauss field `BesselGauss.create` and
  `BesselGauss.compute_intensity` (`pyfso/oam/bessel_gauss.py`).

Machine floats are modelled as real numbers; numpy arrays are modelled both
as lists (for shape/length facts, faithful to `np.arange`, `np.meshgrid`,
`np.rot90`) and as index functions `ℕ → ℕ → ℝ` (for per-cell facts), with
bridging lemmas connecting the two views.  The external special functions
`scipy.special.jv` and `scipy.special.iv` are uninterpreted parameters.
-/

/-- Embedding of `np.arange(start, stop, step)` over exact rationals:
`⌈(stop-start)/step⌉` equally spaced values starting at `start`
(empty when that count is not positive). -/
def arange (start stop step : ℚ) : List ℚ :=
  (List.range (⌈(stop - start) / step⌉).toNat).map (fun k : ℕ => start + (k : ℚ) * step)

/-- The 1D x-axis of `BaseMesh.create_grid` before scaling:
`np.arange(-n_samples/2, n_samples/2 + 1, 1)`. -/
def xq (n : ℕ) : List ℚ := arange (-(n : ℚ) / 2) ((n : ℚ) / 2 + 1) 1

/-- The 1D y-axis of `BaseMesh.create_grid` before scaling:
`np.arange(n_samples/2, -n_samples/2 - 1, -1)`. -/
def yq (n : ℕ) : List ℚ := arange ((n : ℚ) / 2) (-(n : ℚ) / 2 - 1) (-1)

/-- `self.x`: the raw x-axis scaled by `grid_spacing = grid_length / n_samples`. -/
noncomputable def xList (n : ℕ) (L : ℝ) : List ℝ :=
  (xq n).map (fun q : ℚ => (q : ℝ) * (L / (n : ℝ)))

/-- `self.y`: the raw y-axis scaled by `grid_spacing = grid_length / n_samples`. -/
noncomputable def yList (n : ℕ) (L : ℝ) : List ℝ :=
  (yq n).map (fun q : ℚ => (q : ℝ) * (L / (n : ℝ)))

/-- Embedding of `np.meshgrid(x, y)` (default `xy` indexing): the first
component repeats `x` as rows, the second repeats each `y` entry across a row. -/
def meshgrid (x y : List ℝ) : List (List ℝ) × List (List ℝ) :=
  (y.map (fun _ => x), y.map (fun v => x.map (fun _ => v)))

/-- Auxiliary column-cons used by the matrix transpose: prepend the entries of
a list to the corresponding rows of an accumulator. -/
def consCol : List α → List (List α) → List (List α)
  | [], acc => acc
  | a :: as, [] => [a] :: consCol as []
  | a :: as, l :: ls => (a :: l) :: consCol as ls

/-- Matrix transpose on lists of lists (for rectangular input this is the
usual transpose, as performed by numpy). -/
def transposeL (m : List (List α)) : List (List α) := m.foldr consCol []

/-- Embedding of `np.rot90(m)` (one quarter-turn counter-clockwise): on an
`N × N` array, `rot90 m` has entry `m[j][N-1-i]` at position `(i, j)`,
i.e. transpose followed by reversing the rows. -/
def rot90 (m : List (List α)) : List (List α) := (transposeL m).reverse

/-- Element-wise combination of two 2D arrays (numpy broadcasting of a binary
ufunc over two equal-shape arrays). -/
def zip2 (g : ℝ → ℝ → ℝ) (A B : List (List ℝ)) : List (List ℝ) :=
  List.zipWith (List.zipWith g) A B

/-- `cart2pol(x, y) = (phi, rho)` with `rho = sqrt(x²+y²)` and
`phi = arctan2(y, x)`; `arctan2` is embedded as the argument of the complex
number `x + i y`, which has the same range `(-π, π]` and `arctan2(0,0) = 0`. -/
noncomputable def cart2pol (x y : ℝ) : ℝ × ℝ :=
  (Complex.arg ⟨x, y⟩, Real.sqrt (x ^ 2 + y ^ 2))

/-- `pol2cart(rho, phi) = (rho·cos phi, rho·sin phi)`. -/
noncomputable def pol2cart (rho phi : ℝ) : ℝ × ℝ :=
  (rho * Real.cos phi, rho * Real.sin phi)

/-- Index view of `self.x`: entry `i` of the x-axis, `(i - n/2) · (L/n)`. -/
noncomputable def xAxis (n : ℕ) (L : ℝ) (i : ℕ) : ℝ := ((i : ℝ) - (n : ℝ) / 2) * (L / (n : ℝ))

/-- Index view of `self.y`: entry `i` of the (descending) y-axis,
`(n/2 - i) · (L/n)`. -/
noncomputable def yAxis (n : ℕ) (L : ℝ) (i : ℕ) : ℝ := ((n : ℝ) / 2 - (i : ℝ)) * (L / (n : ℝ))

/-- Index view of the mesh `self.xx`: `xx[i,j] = x[j]`. -/
noncomputable def xx (n : ℕ) (L : ℝ) (i j : ℕ) : ℝ := xAxis n L j

/-- Index view of the mesh `self.yy`: `yy[i,j] = y[i]`. -/
noncomputable def yy (n : ℕ) (L : ℝ) (i j : ℕ) : ℝ := yAxis n L i

/-- The polar angle mesh before the `np.rot90` rotation:
first component of `cart2pol(xx, yy)` at cell `(i, j)`. -/
noncomputable def phiRaw (n : ℕ) (L : ℝ) (i j : ℕ) : ℝ :=
  (cart2pol (xx n L i j) (yy n L i j)).1

/-- The polar radius mesh `self.rho`: second component of
`cart2pol(xx, yy)` at cell `(i, j)`. -/
noncomputable def rhoGrid (n : ℕ) (L : ℝ) (i j : ℕ) : ℝ :=
  (cart2pol (xx n L i j) (yy n L i j)).2

/-- The polar angle mesh `self.phi` after `self.phi = np.rot90(self.phi)`:
on the `(n+1) × (n+1)` grid, cell `(i, j)` holds the raw angle at `(j, n-i)`. -/
noncomputable def phiGrid (n : ℕ) (L : ℝ) (i j : ℕ) : ℝ := phiRaw n L j (n - i)

/-- List view of the mesh `self.xx`. -/
noncomputable def xxL (n : ℕ) (L : ℝ) : List (List ℝ) := (meshgrid (xList n L) (yList n L)).1

/-- List view of the mesh `self.yy`. -/
noncomputable def yyL (n : ℕ) (L : ℝ) : List (List ℝ) := (meshgrid (xList n L) (yList n L)).2

/-- List view of `self.rho`: `cart2pol` applied element-wise to the meshes. -/
noncomputable def rhoL (n : ℕ) (L : ℝ) : List (List ℝ) :=
  zip2 (fun a b => (cart2pol a b).2) (xxL n L) (yyL n L)

/-- List view of `self.phi`: `cart2pol` applied element-wise to the meshes,
then rotated by `np.rot90`. -/
noncomputable def phiL (n : ℕ) (L : ℝ) : List (List ℝ) :=
  rot90 (zip2 (fun a b => (cart2pol a b).1) (xxL n L) (yyL n L))

/-- Tabulated `R × k` matrix `[f i j]`, the normal form used to relate the
list view of the meshes to the index view. -/
def tab (R k : ℕ) (f : ℕ → ℕ → α) : List (List α) :=
  (List.range R).map (fun i => (List.range k).map (f i))

/-- A 2D list has shape `k × k`: `k` rows, each of length `k`. -/
def shape2 (m : List (List ℝ)) (k : ℕ) : Prop :=
  m.length = k ∧ ∀ row ∈ m, row.length = k

/-- `self.wave_number = 2 * np.pi / self.wave_length`
(`BaseBeam.compute_optical_params`). -/
noncomputable def wave_number (wave_length : ℝ) : ℝ := 2 * Real.pi / wave_length

/-- `self.rayleigh_range = (np.pi * beam_waist**2) / wave_length`. -/
noncomputable def rayleigh_range (wave_length beam_waist : ℝ) : ℝ :=
  Real.pi * beam_waist ^ 2 / wave_length

/-- `self.beam_width = beam_waist * np.sqrt(1 + (z_coor / rayleigh_range)**2)`. -/
noncomputable def beam_width (wave_length beam_waist z_coor : ℝ) : ℝ :=
  beam_waist * Real.sqrt (1 + (z_coor / rayleigh_range wave_length beam_waist) ^ 2)

/-- `self.kt = self.wave_number / 500`. -/
noncomputable def kt (wave_length : ℝ) : ℝ := wave_number wave_length / 500

/-- The branch condition of `ThinFilm.create` at cell `(i, j)`:
`yy[i,j] >= 0 and xx[i,j]**2 + yy[i,j]**2 <= r**2 and phi[i,j] <= pi/2 and
angle <= phi[i,j]`. -/
def mask_open (n : ℕ) (L r angle : ℝ) (i j : ℕ) : Prop :=
  0 ≤ yy n L i j ∧ xx n L i j ^ 2 + yy n L i j ^ 2 ≤ r ^ 2 ∧
    phiGrid n L i j ≤ Real.pi / 2 ∧ angle ≤ phiGrid n L i j

open Classical in
/-- Per-cell embedding of `ThinFilm.create`: value `1.0` when the four-part
condition `mask_open` holds, else the `transmittance` value `t`. -/
noncomputable def c_mask (n : ℕ) (L r angle t : ℝ) (i j : ℕ) : ℝ :=
  if mask_open n L r angle i j then 1 else t

/-- The `kind == "Jv"` branch of `BesselGauss.create` at one cell value:
`jv(m, kt*rho) * (exp(j*m*phi) * exp((-rho*rho) / beam_width**2))`.
The external `scipy.special.jv` is the uninterpreted parameter `jv`
(`jv m x` is the order-`m` Bessel function of the first kind at `x`). -/
noncomputable def E_Jv (jv : ℝ → ℝ → ℝ) (m ktv w rho phi : ℝ) : ℂ :=
  (jv m (ktv * rho) : ℂ) *
    (Complex.exp (Complex.I * (m : ℂ) * (phi : ℂ)) *
      Complex.exp (((-rho * rho) / w ^ 2 : ℝ) : ℂ))

/-- The `Jv` field over the grid: `E_Jv` evaluated at the grid's polar
arrays `rho` and `phi` at cell `(i, j)`. -/
noncomputable def fieldJv (jv : ℝ → ℝ → ℝ) (m ktv w : ℝ) (n : ℕ) (L : ℝ) (i j : ℕ) : ℂ :=
  E_Jv jv m ktv w (rhoGrid n L i j) (phiGrid n L i j)

/-- The `kind == "Iv"` branch of `BesselGauss.create` at one cell value:
`coff * (bessel_iv * (rho * (exp(j*m*phi) * exp(-(rho**2) / w**2))))` with
`coff = (sqrt(pi)/beam_waist) * exp(j*(z/z_R)) * exp(j*(3*pi/2)*m) * exp(j*k*z)`
and `bessel_iv = iv((m-1)/2, rho²/(2w²)) - iv((m+1)/2, rho²/(2w²))`; the
external `scipy.special.iv` is the uninterpreted parameter `iv`.  (The two
computed-but-discarded refraction expressions of the source are dropped.) -/
noncomputable def E_Iv (iv : ℝ → ℝ → ℝ) (m w0 zR k z w rho phi : ℝ) : ℂ :=
  (((Real.sqrt Real.pi / w0 : ℝ) : ℂ) *
      Complex.exp (Complex.I * ((z / zR : ℝ) : ℂ)) *
      Complex.exp (Complex.I * ((3 * Real.pi / 2 : ℝ) : ℂ) * (m : ℂ)) *
      Complex.exp (Complex.I * (k : ℂ) * (z : ℂ))) *
    (((iv ((m - 1) / 2) (rho ^ 2 / (2 * w ^ 2)) -
        iv ((m + 1) / 2) (rho ^ 2 / (2 * w ^ 2)) : ℝ) : ℂ) *
      ((rho : ℂ) *
        (Complex.exp (Complex.I * (m : ℂ) * (phi : ℂ)) *
          Complex.exp ((-(rho ^ 2) / w ^ 2 : ℝ) : ℂ))))

/-- The stored state of a `BesselGauss` instance (construction parameters;
the grid and optical parameters are derived from these fields). -/
structure BesselGauss where
  n_samples : ℕ
  grid_length : ℝ
  wave_length : ℝ
  angular_momentum : ℝ
  beam_waist : ℝ
  z_coor : ℝ
  kind : String

/-- Embedding of `BesselGauss.__init__`: it stores the parameters (and, via
`BaseBeam.__init__`, builds the grid and optical parameters, which here are
recomputed from the stored fields); it performs no validation and always
returns an instance, for every `kind` string. -/
def BesselGauss.init (n_samples : ℕ)
    (grid_length wave_length angular_momentum beam_waist z_coor : ℝ)
    (kind : String) : BesselGauss :=
  ⟨n_samples, grid_length, wave_length, angular_momentum, beam_waist, z_coor, kind⟩

/-- Embedding of `BesselGauss.create`: dispatch on the `kind` tag, producing
the per-cell field for `"Jv"` and `"Iv"` and the `ValueError` (with the
source's message) for any other tag. -/
noncomputable def BesselGauss.create (jv iv : ℝ → ℝ → ℝ) (b : BesselGauss) :
    Except String (ℕ → ℕ → ℂ) :=
  if b.kind = "Jv" then
    .ok (fun i j =>
      E_Jv jv b.angular_momentum (kt b.wave_length)
        (beam_width b.wave_length b.beam_waist b.z_coor)
        (rhoGrid b.n_samples b.grid_length i j) (phiGrid b.n_samples b.grid_length i j))
  else if b.kind = "Iv" then
    .ok (fun i j =>
      E_Iv iv b.angular_momentum b.beam_waist
        (rayleigh_range b.wave_length b.beam_waist) (wave_number b.wave_length)
        b.z_coor (beam_width b.wave_length b.beam_waist b.z_coor)
        (rhoGrid b.n_samples b.grid_length i j) (phiGrid b.n_samples b.grid_length i j))
  else
    .error "The Bessel-Gauss kind attribute introduced is unkown or unsupported."

/-- Embedding of `BesselGauss.compute_intensity` at one cell:
`np.multiply(E, np.conj(E))` (note: the returned value is a complex number
whose imaginary part is zero, not a real number). -/
noncomputable def compute_intensity (E : ℂ) : ℂ := E * (starRingEnd ℂ) E

example : rot90 [[1, 2], [3, 4]] = [[2, 4], [1, 3]] := rfl

/-- The raw x-axis lists the `n+1` values `-n/2 + k` for `k = 0, …, n`. -/
theorem xq_eq (n : ℕ) :
    xq n = (List.range (n + 1)).map (fun k : ℕ => -(n : ℚ) / 2 + (k : ℚ)) := by
  unfold xq arange
  have h1 : (((n : ℚ) / 2 + 1) - (-(n : ℚ) / 2)) / 1 = ((n + 1 : ℕ) : ℚ) := by
    push_cast; ring
  rw [h1, Int.ceil_natCast, Int.toNat_natCast]
  refine List.map_congr_left (fun k _ => ?_)
  ring

/-- The raw y-axis lists the `n+1` values `n/2 - k` for `k = 0, …, n`. -/
theorem yq_eq (n : ℕ) :
    yq n = (List.range (n + 1)).map (fun k : ℕ => (n : ℚ) / 2 - (k : ℚ)) := by
  unfold yq arange
  have h1 : ((-(n : ℚ) / 2 - 1) - ((n : ℚ) / 2)) / (-1) = ((n + 1 : ℕ) : ℚ) := by
    push_cast; ring
  rw [h1, Int.ceil_natCast, Int.toNat_natCast]
  refine List.map_congr_left (fun k _ => ?_)
  ring

/-- The scaled x-axis is `xAxis` tabulated over `n+1` indices. -/
theorem xList_eq (n : ℕ) (L : ℝ) :
    xList n L = (List.range (n + 1)).map (xAxis n L) := by
  unfold xList
  rw [xq_eq, List.map_map]
  refine List.map_congr_left (fun k _ => ?_)
  unfold xAxis
  simp only [Function.comp_apply]
  push_cast
  ring

/-- The scaled y-axis is `yAxis` tabulated over `n+1` indices. -/
theorem yList_eq (n : ℕ) (L : ℝ) :
    yList n L = (List.range (n + 1)).map (yAxis n L) := by
  unfold yList
  rw [yq_eq, List.map_map]
  refine List.map_congr_left (fun k _ => ?_)
  unfold yAxis
  simp only [Function.comp_apply]
  push_cast
  ring

/-- `consCol` into an empty accumulator produces singleton rows. -/
theorem consCol_nil (as : List α) : consCol as ([] : List (List α)) = as.map (fun a => [a]) := by
  induction as with
  | nil => rfl
  | cons a as ih => simpa [consCol] using ih

/-- On accumulators of matching length, `consCol` is `zipWith (· :: ·)`. -/
theorem consCol_eq_zipWith (as : List α) (acc : List (List α)) (h : as.length = acc.length) :
    consCol as acc = List.zipWith (fun a l => a :: l) as acc := by
  induction as generalizing acc with
  | nil =>
    cases acc with
    | nil => rfl
    | cons l ls => simp at h
  | cons a as ih =>
    cases acc with
    | nil => simp at h
    | cons l ls =>
      simp only [List.length_cons, Nat.add_right_cancel_iff] at h
      simp [consCol, List.zipWith, ih ls h]

/-- Splitting off the first row of a tabulated matrix. -/
theorem tab_succ (R k : ℕ) (f : ℕ → ℕ → α) :
    tab (R + 1) k f = ((List.range k).map (f 0)) :: tab R k (fun i => f (i + 1)) := by
  unfold tab
  rw [List.range_succ_eq_map, List.map_cons, List.map_map]
  rfl

/-- Transposing a tabulated `(R+1) × k` matrix swaps the index roles. -/
theorem transpose_tab (R k : ℕ) (f : ℕ → ℕ → α) :
    transposeL (tab (R + 1) k f) = tab k (R + 1) (fun j i => f i j) := by
  induction R generalizing f with
  | zero =>
    rw [tab_succ]
    show consCol ((List.range k).map (f 0)) (transposeL (tab 0 k fun i => f (i + 1))) =
      tab k 1 (fun j i => f i j)
    have h0 : tab 0 k (fun i => f (i + 1)) = [] := rfl
    rw [h0]
    show consCol ((List.range k).map (f 0)) [] = tab k 1 (fun j i => f i j)
    rw [consCol_nil, List.map_map]
    unfold tab
    refine List.map_congr_left (fun j _ => ?_)
    simp [List.range_succ]
  | succ R ih =>
    rw [tab_succ]
    show consCol ((List.range k).map (f 0)) (transposeL (tab (R + 1) k fun i => f (i + 1))) =
      tab k (R + 2) (fun j i => f i j)
    rw [ih]
    rw [consCol_eq_zipWith _ _ (by simp [tab])]
    unfold tab
    rw [List.zipWith_map, List.zipWith_same]
    refine List.map_congr_left (fun j _ => ?_)
    simp only [List.range_succ_eq_map, List.map_cons, List.map_map, Function.comp,
      Nat.succ_eq_add_one]
    rfl

/-- Reversing `range k` enumerates `k - 1 - i`. -/
theorem range_reverse_map (k : ℕ) :
    (List.range k).reverse = (List.range k).map (fun i => k - 1 - i) := by
  apply List.ext_getElem?
  intro i
  by_cases h : i < k
  · rw [List.getElem?_reverse (by simpa using h)]
    simp only [List.length_range]
    rw [List.getElem?_range (by omega), List.getElem?_map, List.getElem?_range h]
    rfl
  · have h1 : (List.range k).reverse.length ≤ i := by simpa using Nat.le_of_not_lt h
    have h2 : ((List.range k).map (fun i => k - 1 - i)).length ≤ i := by
      simpa using Nat.le_of_not_lt h
    rw [List.getElem?_eq_none h1, List.getElem?_eq_none h2]

/-- `np.rot90` of a tabulated square matrix, as an index transformation:
cell `(i, j)` of the rotation holds cell `(j, n - i)` of the original. -/
theorem rot90_tab (n : ℕ) (f : ℕ → ℕ → α) :
    rot90 (tab (n + 1) (n + 1) f) = tab (n + 1) (n + 1) (fun i j => f j (n - i)) := by
  unfold rot90
  rw [transpose_tab]
  unfold tab
  rw [← List.map_reverse, range_reverse_map, List.map_map]
  refine List.map_congr_left (fun i _ => ?_)
  simp only [Function.comp]
  have : n + 1 - 1 - i = n - i := by omega
  rw [this]

/-- The `xx` mesh is `xx` tabulated over the `(n+1) × (n+1)` grid. -/
theorem xxL_eq (n : ℕ) (L : ℝ) : xxL n L = tab (n + 1) (n + 1) (xx n L) := by
  have h : xxL n L = (yList n L).map (fun _ => xList n L) := rfl
  rw [h, yList_eq, xList_eq, List.map_map]
  rfl

/-- The `yy` mesh is `yy` tabulated over the `(n+1) × (n+1)` grid. -/
theorem yyL_eq (n : ℕ) (L : ℝ) : yyL n L = tab (n + 1) (n + 1) (yy n L) := by
  have h : yyL n L = (yList n L).map (fun v => (xList n L).map (fun _ => v)) := rfl
  rw [h, yList_eq, xList_eq, List.map_map]
  refine List.map_congr_left (fun i _ => ?_)
  simp only [Function.comp_apply]
  rw [List.map_map]
  rfl

/-- Element-wise combination of two tabulated matrices. -/
theorem zip2_tab (g : ℝ → ℝ → ℝ) (R k : ℕ) (f1 f2 : ℕ → ℕ → ℝ) :
    zip2 g (tab R k f1) (tab R k f2) = tab R k (fun i j => g (f1 i j) (f2 i j)) := by
  unfold zip2 tab
  rw [List.zipWith_map, List.zipWith_same]
  refine List.map_congr_left (fun i _ => ?_)
  rw [List.zipWith_map, List.zipWith_same]

/-- The `rho` array of the grid is `rhoGrid` tabulated. -/
theorem rhoL_eq (n : ℕ) (L : ℝ) : rhoL n L = tab (n + 1) (n + 1) (rhoGrid n L) := by
  unfold rhoL
  rw [xxL_eq, yyL_eq, zip2_tab]
  rfl

/-- The `phi` array of the grid is `phiGrid` tabulated: the rotated angle at
cell `(i, j)` is the raw angle at cell `(j, n - i)`. -/
theorem phiL_eq (n : ℕ) (L : ℝ) : phiL n L = tab (n + 1) (n + 1) (phiGrid n L) := by
  unfold phiL
  rw [xxL_eq, yyL_eq, zip2_tab, rot90_tab]
  rfl

/-- A tabulated `k × k` matrix has shape `k × k`. -/
theorem shape2_tab (k : ℕ) (f : ℕ → ℕ → ℝ) : shape2 (tab k k f) k := by
  constructor
  · simp [tab]
  · intro row hrow
    unfold tab at hrow
    rcases List.mem_map.mp hrow with ⟨i, _, rfl⟩
    simp

/-- The radius array in closed form: `rho[i,j] = sqrt(x[j]² + y[i]²)`. -/
theorem rhoGrid_eq (n : ℕ) (L : ℝ) (i j : ℕ) :
    rhoGrid n L i j = Real.sqrt (xAxis n L j ^ 2 + yAxis n L i ^ 2) := rfl

/-- Reflecting an index across the centre negates the x-axis value. -/
theorem xAxis_sub (n : ℕ) (L : ℝ) (j : ℕ) (hj : j ≤ n) :
    xAxis n L (n - j) = -xAxis n L j := by
  unfold xAxis
  rw [Nat.cast_sub hj]
  ring

/-- Reflecting an index across the centre negates the y-axis value. -/
theorem yAxis_sub (n : ℕ) (L : ℝ) (i : ℕ) (hi : i ≤ n) :
    yAxis n L (n - i) = -yAxis n L i := by
  unfold yAxis
  rw [Nat.cast_sub hi]
  ring

/-- Claim C1, counterexample: on the odd grid `n_samples = 3`,
`grid_length = 3` (axis `-1.5, -0.5, 0.5, 1.5`), no sample of either axis
lies at `0`, while on the even grid `n_samples = 4`, `grid_length = 4` the
centre sample (index `2`) of both axes lies exactly at `0` — the opposite of
the claimed odd/even behaviour. -/
theorem c1_counterexample :
    (xAxis 3 3 0 ≠ 0 ∧ xAxis 3 3 1 ≠ 0 ∧ xAxis 3 3 2 ≠ 0 ∧ xAxis 3 3 3 ≠ 0) ∧
    (yAxis 3 3 0 ≠ 0 ∧ yAxis 3 3 1 ≠ 0 ∧ yAxis 3 3 2 ≠ 0 ∧ yAxis 3 3 3 ≠ 0) ∧
    xAxis 4 4 2 = 0 ∧ yAxis 4 4 2 = 0 := by
  norm_num [xAxis, yAxis]

/-- Claim C1 (amended): for even `n_samples` the centre sample (index `n/2`)
of the coordinate axes, and hence of the `X`, `Y` meshes, lies exactly at
`(0, 0)`; for odd `n_samples` no sample of either axis lies at the origin
(no validation or error is raised in either case — the construction is total). -/
theorem c1_grid_center (n : ℕ) (L : ℝ) (hL : L ≠ 0) :
    (Even n → xAxis n L (n / 2) = 0 ∧ yAxis n L (n / 2) = 0 ∧
      xx n L (n / 2) (n / 2) = 0 ∧ yy n L (n / 2) (n / 2) = 0) ∧
    (Odd n → ∀ i : ℕ, xAxis n L i ≠ 0 ∧ yAxis n L i ≠ 0) := by
  constructor
  · intro he
    obtain ⟨k, hk⟩ := he
    subst hk
    have h2 : (k + k) / 2 = k := by omega
    have hc : ((k + k : ℕ) : ℝ) = 2 * (k : ℝ) := by push_cast; ring
    have hx : xAxis (k + k) L ((k + k) / 2) = 0 := by
      unfold xAxis
      rw [h2, hc]
      ring
    have hy : yAxis (k + k) L ((k + k) / 2) = 0 := by
      unfold yAxis
      rw [h2, hc]
      ring
    exact ⟨hx, hy, hx, hy⟩
  · rintro ⟨k, hk⟩ i
    subst hk
    have hn0 : ((2 * k + 1 : ℕ) : ℝ) ≠ 0 := Nat.cast_ne_zero.mpr (by omega)
    have hq : L / ((2 * k + 1 : ℕ) : ℝ) ≠ 0 := div_ne_zero hL hn0
    have hx1 : (i : ℝ) - ((2 * k + 1 : ℕ) : ℝ) / 2 ≠ 0 := by
      push_cast
      intro hE
      have h1 : 2 * (i : ℝ) = 2 * (k : ℝ) + 1 := by linarith
      have h2 : ((2 * i : ℕ) : ℝ) = ((2 * k + 1 : ℕ) : ℝ) := by push_cast; linarith
      have h3 : 2 * i = 2 * k + 1 := Nat.cast_injective h2
      omega
    have hy1 : ((2 * k + 1 : ℕ) : ℝ) / 2 - (i : ℝ) ≠ 0 := by
      intro hE
      exact hx1 (by linarith)
    exact ⟨mul_ne_zero hx1 hq, mul_ne_zero hy1 hq⟩

/-- Witness for C1 (amended) at `n_samples = 3`, `grid_length = 1`. -/
theorem c1_grid_center_witness : xAxis 3 1 1 ≠ 0 :=
  ((c1_grid_center 3 1 (by norm_num)).2 ⟨1, by norm_num⟩ 1).1

/-- Claim C2: for positive `n_samples` and positive `grid_length`, both 1D
axes have exactly `n_samples + 1` evenly spaced points with spacing
`grid_length / n_samples`, first/last x points `-grid_length/2` and
`+grid_length/2` (the y axis the same values in descending order), and the
`X`, `Y`, `rho`, `phi` meshes all have shape `(n_samples+1, n_samples+1)`. -/
theorem c2_grid_axes (n : ℕ) (L : ℝ) (hn : 0 < n) (hL : 0 < L) :
    (xList n L).length = n + 1 ∧
    (yList n L).length = n + 1 ∧
    (∀ i, i ≤ n → (xList n L)[i]? = some (xAxis n L i)) ∧
    (∀ i, i ≤ n → (yList n L)[i]? = some (yAxis n L i)) ∧
    (∀ i, i < n → xAxis n L (i + 1) - xAxis n L i = L / n) ∧
    (∀ i, i < n → yAxis n L (i + 1) - yAxis n L i = -(L / n)) ∧
    xAxis n L 0 = -(L / 2) ∧ xAxis n L n = L / 2 ∧
    yAxis n L 0 = L / 2 ∧ yAxis n L n = -(L / 2) ∧
    shape2 (xxL n L) (n + 1) ∧ shape2 (yyL n L) (n + 1) ∧
    shape2 (rhoL n L) (n + 1) ∧ shape2 (phiL n L) (n + 1) := by
  have hn' : (n : ℝ) ≠ 0 := Nat.cast_ne_zero.mpr hn.ne'
  refine ⟨?_, ?_, ?_, ?_, ?_, ?_, ?_, ?_, ?_, ?_, ?_, ?_, ?_, ?_⟩
  · rw [xList_eq]; simp
  · rw [yList_eq]; simp
  · intro i hi
    rw [xList_eq, List.getElem?_map, List.getElem?_range (by omega)]
    rfl
  · intro i hi
    rw [yList_eq, List.getElem?_map, List.getElem?_range (by omega)]
    rfl
  · intro i _
    unfold xAxis
    push_cast
    field_simp
    ring
  · intro i _
    unfold yAxis
    push_cast
    field_simp
    ring
  · unfold xAxis
    push_cast
    field_simp
    ring
  · unfold xAxis
    field_simp
    ring
  · unfold yAxis
    push_cast
    field_simp
    ring
  · unfold yAxis
    field_simp
    ring
  · rw [xxL_eq]; exact shape2_tab _ _
  · rw [yyL_eq]; exact shape2_tab _ _
  · rw [rhoL_eq]; exact shape2_tab _ _
  · rw [phiL_eq]; exact shape2_tab _ _

/-- Witness for C2 at `n_samples = 2`, `grid_length = 1`. -/
theorem c2_grid_axes_witness :
    (xList 2 1).length = 2 + 1 ∧ xAxis 2 1 0 = -(1 / 2 : ℝ) := by
  have h := c2_grid_axes 2 1 (by norm_num) (by norm_num)
  exact ⟨h.1, h.2.2.2.2.2.2.1⟩

/-- Claim C5: the optical parameters are `wave_number = 2π/λ`,
`rayleigh_range = π·w₀²/λ`, `beam_width = w₀·sqrt(1+(z/z_R)²)`,
`kt = wave_number/500`, and at `z_coor = 0` the beam width equals the
beam waist exactly. -/
theorem c5_optical_params (wl w0 z : ℝ) (hwl : 0 < wl) (hw0 : 0 < w0) :
    wave_number wl = 2 * Real.pi / wl ∧
    rayleigh_range wl w0 = Real.pi * w0 ^ 2 / wl ∧
    beam_width wl w0 z = w0 * Real.sqrt (1 + (z / (Real.pi * w0 ^ 2 / wl)) ^ 2) ∧
    kt wl = (2 * Real.pi / wl) / 500 ∧
    beam_width wl w0 0 = w0 := by
  refine ⟨rfl, rfl, rfl, rfl, ?_⟩
  unfold beam_width
  norm_num [Real.sqrt_one]

/-- Witness for C5 at `wave_length = 1`, `beam_waist = 1`, `z_coor = 0`. -/
theorem c5_optical_params_witness : beam_width 1 1 0 = 1 :=
  (c5_optical_params 1 1 0 one_pos one_pos).2.2.2.2

/-- Claim C7: under the point reflection `(i,j) ↦ (n-i, n-j)` through the
grid centre, `rho` is invariant and `X`, `Y` are exactly negated; moreover
`X` is antisymmetric about the centre column alone and `Y` about the centre
row alone. -/
theorem c7_grid_symmetry (n : ℕ) (L : ℝ) (i j : ℕ) (hi : i ≤ n) (hj : j ≤ n) :
    rhoGrid n L (n - i) (n - j) = rhoGrid n L i j ∧
    xx n L (n - i) (n - j) = -xx n L i j ∧
    yy n L (n - i) (n - j) = -yy n L i j ∧
    xx n L i (n - j) = -xx n L i j ∧
    yy n L (n - i) j = -yy n L i j := by
  have hx := xAxis_sub n L j hj
  have hy := yAxis_sub n L i hi
  have hrho : rhoGrid n L (n - i) (n - j) = rhoGrid n L i j := by
    rw [rhoGrid_eq, rhoGrid_eq, hx, hy]
    congr 1
    ring
  exact ⟨hrho, hx, hy, hx, hy⟩

/-- Witness for C7 at `n_samples = 4`, `grid_length = 1`, cell `(1, 2)`. -/
theorem c7_grid_symmetry_witness : rhoGrid 4 1 3 2 = rhoGrid 4 1 1 2 :=
  (c7_grid_symmetry 4 1 1 2 (by norm_num) (by norm_num)).1

/-- When the wedge condition holds, the mask cell is `1.0`. -/
theorem c_mask_pos (n : ℕ) (L r angle t : ℝ) (i j : ℕ)
    (h : mask_open n L r angle i j) : c_mask n L r angle t i j = 1 := by
  unfold c_mask
  rw [if_pos h]

/-- When the wedge condition fails, the mask cell is the transmittance. -/
theorem c_mask_neg (n : ℕ) (L r angle t : ℝ) (i j : ℕ)
    (h : ¬ mask_open n L r angle i j) : c_mask n L r angle t i j = t := by
  unfold c_mask
  rw [if_neg h]

/-- Claim C3, counterexample: with `transmittance = 1`, the cell
`(i, j) = (2, 1)` of the `n_samples = 2`, `grid_length = 2` grid has
`y = -1 < 0` (the four conditions fail) yet its mask value is `1.0`, so
"value `1.0` only if all four conditions hold" is false as stated. -/
theorem c3_counterexample :
    c_mask 2 2 20 0 1 2 1 = 1 ∧ ¬ (0 ≤ yy 2 2 2 1) := by
  have hy : ¬ (0 ≤ yy 2 2 2 1) := by norm_num [yy, yAxis]
  exact ⟨c_mask_neg 2 2 20 0 1 2 1 (fun hc => hy hc.1), hy⟩

/-- Claim C3 (amended): provided the transmittance parameter is not itself
`1`, a cell's mask value is `1.0` iff `y ≥ 0`, `x²+y² ≤ r²`, `φ ≤ π/2` and
`angle ≤ φ` all hold of that cell; whenever the condition fails the cell
equals the transmittance parameter (the latter holds for every
transmittance). -/
theorem c3_mask (n : ℕ) (L r angle t : ℝ) (i j : ℕ) (ht : t ≠ 1) :
    (c_mask n L r angle t i j = 1 ↔ mask_open n L r angle i j) ∧
    (¬ mask_open n L r angle i j → c_mask n L r angle t i j = t) := by
  by_cases hc : mask_open n L r angle i j
  · exact ⟨⟨fun _ => hc, fun _ => c_mask_pos n L r angle t i j hc⟩,
      fun h => absurd hc h⟩
  · refine ⟨⟨fun h1 => ?_, fun h => absurd h hc⟩,
      fun _ => c_mask_neg n L r angle t i j hc⟩
    rw [c_mask_neg n L r angle t i j hc] at h1
    exact absurd h1 ht

/-- Witness for C3 (amended): the same off-wedge cell with
`transmittance = 0` takes the value `0`. -/
theorem c3_mask_witness : c_mask 2 2 20 0 0 2 1 = 0 :=
  (c3_mask 2 2 20 0 0 2 1 (by norm_num)).2
    (fun hc => absurd hc.1 (by norm_num [yy, yAxis]))

/-- Claim C10: every mask cell is either exactly `1.0` or exactly the
transmittance parameter, and when the transmittance lies in `[0, 1]` so
does every mask cell. -/
theorem c10_mask_two_valued (n : ℕ) (L r angle t : ℝ) (i j : ℕ) :
    (c_mask n L r angle t i j = 1 ∨ c_mask n L r angle t i j = t) ∧
    (0 ≤ t → t ≤ 1 → 0 ≤ c_mask n L r angle t i j ∧ c_mask n L r angle t i j ≤ 1) := by
  by_cases hc : mask_open n L r angle i j
  · rw [c_mask_pos n L r angle t i j hc]
    exact ⟨Or.inl rfl, fun _ _ => by norm_num⟩
  · rw [c_mask_neg n L r angle t i j hc]
    exact ⟨Or.inr rfl, fun h0 h1 => ⟨h0, h1⟩⟩

/-- Witness for C10 at `transmittance = 1/2`, cell `(0, 0)`. -/
theorem c10_mask_two_valued_witness :
    (c_mask 2 2 20 0 (1 / 2) 0 0 = 1 ∨ c_mask 2 2 20 0 (1 / 2) 0 0 = 1 / 2) ∧
    (0 ≤ c_mask 2 2 20 0 (1 / 2) 0 0 ∧ c_mask 2 2 20 0 (1 / 2) 0 0 ≤ 1) :=
  ⟨(c10_mask_two_valued 2 2 20 0 (1 / 2) 0 0).1,
   (c10_mask_two_valued 2 2 20 0 (1 / 2) 0 0).2 (by norm_num) (by norm_num)⟩

/-- Claim C4: at every grid cell, for every real order `m` and parameters
`kt`, `beam_width`, the `Jv`-variant field equals
`J_m(kt·ρ) · exp(i·m·φ) · exp(−ρ²/w²)` with `ρ`, `φ` the grid's polar
arrays (`jv` is the uninterpreted order-`m` Bessel function of the first
kind). -/
theorem c4_fieldJv (jv : ℝ → ℝ → ℝ) (m ktv w : ℝ) (n : ℕ) (L : ℝ) (i j : ℕ) :
    fieldJv jv m ktv w n L i j =
      (jv m (ktv * rhoGrid n L i j) : ℂ) *
        Complex.exp (Complex.I * (m : ℂ) * (phiGrid n L i j : ℂ)) *
        Complex.exp ((-(rhoGrid n L i j ^ 2) / w ^ 2 : ℝ) : ℂ) := by
  unfold fieldJv E_Jv
  have h : -rhoGrid n L i j * rhoGrid n L i j / w ^ 2
      = -(rhoGrid n L i j ^ 2) / w ^ 2 := by ring
  rw [h]
  ring

/-- Claim C9: the intensity of any complex field value is a complex number
with zero imaginary part, equal to the real number `Re(E·conj(E))`, and
non-negative; in particular every intensity of a `Jv` field is `≥ 0`. -/
theorem c9_intensity :
    (∀ E : ℂ, (compute_intensity E).im = 0 ∧
      compute_intensity E = (((compute_intensity E).re : ℝ) : ℂ) ∧
      (compute_intensity E).re = (E * (starRingEnd ℂ) E).re ∧
      0 ≤ (compute_intensity E).re) ∧
    (∀ (jv : ℝ → ℝ → ℝ) (m ktv w : ℝ) (n : ℕ) (L : ℝ) (i j : ℕ),
      0 ≤ (compute_intensity (fieldJv jv m ktv w n L i j)).re) := by
  have key : ∀ E : ℂ, compute_intensity E = ((Complex.normSq E : ℝ) : ℂ) :=
    fun E => Complex.mul_conj E
  have him : ∀ E : ℂ, (compute_intensity E).im = 0 := by
    intro E; rw [key E]; simp
  have hre : ∀ E : ℂ, 0 ≤ (compute_intensity E).re := by
    intro E; rw [key E]; simp [Complex.normSq_nonneg]
  refine ⟨fun E => ⟨him E, ?_, rfl, hre E⟩, fun jv m ktv w n L i j => hre _⟩
  rw [key E]
  simp

/-- Claim C8, counterexample: constructing a `BesselGauss` with the
unsupported tag `"Xv"` succeeds (the instance is created, storing the tag);
the unsupported-variant error is raised only by the later `create` call. -/
theorem c8_counterexample :
    (BesselGauss.init 2 1 1 1 1 0 "Xv").kind = "Xv" ∧
    BesselGauss.create (fun _ _ => 0) (fun _ _ => 0) (BesselGauss.init 2 1 1 1 1 0 "Xv") =
      .error "The Bessel-Gauss kind attribute introduced is unkown or unsupported." := by
  constructor
  · rfl
  · unfold BesselGauss.create
    rw [if_neg (by decide), if_neg (by decide)]

/-- Claim C8 (amended): the field evaluation `create` succeeds iff the
stored `kind` tag is `"Jv"` or `"Iv"`, and for every other tag it fails
with the unsupported-variant error (construction itself never fails and
performs no validation). -/
theorem c8_variant_dispatch (jv iv : ℝ → ℝ → ℝ) (b : BesselGauss) :
    ((∃ E, BesselGauss.create jv iv b = .ok E) ↔ (b.kind = "Jv" ∨ b.kind = "Iv")) ∧
    (b.kind ≠ "Jv" → b.kind ≠ "Iv" →
      BesselGauss.create jv iv b =
        .error "The Bessel-Gauss kind attribute introduced is unkown or unsupported.") := by
  unfold BesselGauss.create
  by_cases h1 : b.kind = "Jv"
  · simp only [if_pos h1]
    exact ⟨⟨fun _ => Or.inl h1, fun _ => ⟨_, rfl⟩⟩, fun hn _ => absurd h1 hn⟩
  · simp only [if_neg h1]
    by_cases h2 : b.kind = "Iv"
    · simp only [if_pos h2]
      exact ⟨⟨fun _ => Or.inr h2, fun _ => ⟨_, rfl⟩⟩, fun _ hn => absurd h2 hn⟩
    · simp only [if_neg h2]
      refine ⟨⟨fun hE => ?_, fun hor => ?_⟩, fun _ _ => trivial⟩
      · obtain ⟨E, hE⟩ := hE
        exact Except.noConfusion hE
      · rcases hor with h | h
        · exact absurd h h1
        · exact absurd h h2

/-- Claim C6: composing `pol2cart` with the `rho` and `phi` produced by
`cart2pol` reconstructs any nonzero point `(x, y)` exactly, and at the
origin `cart2pol` returns the angle `0`. -/
theorem c6_roundtrip (x y : ℝ) (h : (x, y) ≠ ((0 : ℝ), (0 : ℝ))) :
    pol2cart (cart2pol x y).2 (cart2pol x y).1 = (x, y) ∧ (cart2pol 0 0).1 = 0 := by
  have hz : (⟨x, y⟩ : ℂ) ≠ 0 := by
    intro h0
    apply h
    have hre := congrArg Complex.re h0
    have him := congrArg Complex.im h0
    simp only [Complex.zero_re, Complex.zero_im] at hre him
    rw [hre, him]
  constructor
  · unfold pol2cart cart2pol
    have habs : Real.sqrt (x ^ 2 + y ^ 2) = Complex.abs ⟨x, y⟩ := by
      rw [Complex.abs_apply, Complex.normSq_mk]
      congr 1
      ring
    have hcos : Real.cos (Complex.arg ⟨x, y⟩) = x / Complex.abs ⟨x, y⟩ :=
      Complex.cos_arg hz
    have hsin : Real.sin (Complex.arg ⟨x, y⟩) = y / Complex.abs ⟨x, y⟩ :=
      Complex.sin_arg ⟨x, y⟩
    have hne : Complex.abs ⟨x, y⟩ ≠ 0 := Complex.abs.ne_zero hz
    refine Prod.ext ?_ ?_
    · show Real.sqrt (x ^ 2 + y ^ 2) * Real.cos (Complex.arg ⟨x, y⟩) = x
      rw [habs, hcos]
      field_simp
    · show Real.sqrt (x ^ 2 + y ^ 2) * Real.sin (Complex.arg ⟨x, y⟩) = y
      rw [habs, hsin]
      field_simp
  · show Complex.arg ⟨0, 0⟩ = 0
    have h00 : (⟨0, 0⟩ : ℂ) = 0 := by
      apply Complex.ext <;> simp
    rw [h00, Complex.arg_zero]

/-- Witness for C6 at `(x, y) = (1, 0)`. -/
theorem c6_roundtrip_witness :
    pol2cart (cart2pol 1 0).2 (cart2pol 1 0).1 = ((1 : ℝ), (0 : ℝ)) :=
  (c6_roundtrip 1 0 (by simp)).1
